import Mathlib

/-!
Verification of the pace calculator engine (`pace_calc.py`).

The Python code is shallowly embedded over exact rationals: Python floats
become `ℚ`, Python `int(x)` truncation-toward-zero becomes `truncInt`,
`range(a, b)` over machine integers becomes `intRange`, pacing-pattern
dicts (insertion-ordered) become association lists, and a raised exception
becomes `Option.none`.
-/

namespace PaceCalc

set_option maxRecDepth 100000

unseal Rat.add Rat.mul Rat.inv Rat.sub

/-- A distance interval `[start, end)` of a pacing pattern. -/
abbrev Interval : Type := ℚ × ℚ

/-- A pacing pattern: an insertion-ordered dict mapping intervals to
relative-speed percentages, embedded as an association list. -/
abbrev Pattern : Type := List (Interval × ℚ)

/-- Python `int(x)` on a real number: truncation toward zero. -/
def truncInt (q : ℚ) : ℤ :=
  if 0 ≤ q then ⌊q⌋ else ⌈q⌉

/-- Auxiliary recursion for `intRange`: `n` consecutive integers from `x`. -/
def intRangeGo : ℕ → ℤ → List ℤ
  | 0, _ => []
  | n + 1, x => x :: intRangeGo n (x + 1)

/-- Python `range(a, b)` over integers: `[a, a+1, ..., b-1]`, empty when `b ≤ a`. -/
def intRange (a b : ℤ) : List ℤ :=
  intRangeGo (b - a).toNat a

/-- `SECTIONS` from `pace_calc.py`: the configured section boundaries. -/
def SECTIONS : List (ℚ × ℚ) :=
  [(0, 120), (120, 200), (200, 300), (300, 400),
   (400, 500), (500, 600), (600, 700), (700, 800)]

/-- `RACE_PATTERN_ALL` from `pace_calc.py` (Table 5-7 averages). -/
def RACE_PATTERN_ALL : Pattern :=
  [((0, 120), 10337/100), ((120, 200), 10499/100), ((200, 300), 10034/100), ((300, 400), 9848/100),
   ((400, 500), 9848/100), ((500, 600), 9953/100), ((600, 700), 9875/100), ((700, 800), 9745/100)]

/-- `RACE_PATTERN_POS` from `pace_calc.py`. -/
def RACE_PATTERN_POS : Pattern :=
  [((0, 120), 10434/100), ((120, 200), 10583/100), ((200, 300), 10171/100), ((300, 400), 9939/100),
   ((400, 500), 9912/100), ((500, 600), 9894/100), ((600, 700), 9744/100), ((700, 800), 9507/100)]

/-- `RACE_PATTERN_MED` from `pace_calc.py`. -/
def RACE_PATTERN_MED : Pattern :=
  [((0, 120), 10268/100), ((120, 200), 10489/100), ((200, 300), 10034/100), ((300, 400), 9847/100),
   ((400, 500), 9729/100), ((500, 600), 9875/100), ((600, 700), 9965/100), ((700, 800), 9939/100)]

/-- `RACE_PATTERN_NEG` from `pace_calc.py`. -/
def RACE_PATTERN_NEG : Pattern :=
  [((0, 120), 10206/100), ((120, 200), 10348/100), ((200, 300), 9780/100), ((300, 400), 9681/100),
   ((400, 500), 9816/100), ((500, 600), 10120/100), ((600, 700), 10053/100), ((700, 800), 10046/100)]

/-- `PATTERNS` from `pace_calc.py`: the catalog of named patterns. -/
def PATTERNS : List (String × Pattern) :=
  [("ALL", RACE_PATTERN_ALL), ("POS", RACE_PATTERN_POS),
   ("MED", RACE_PATTERN_MED), ("NEG", RACE_PATTERN_NEG)]

/-- The loop test `start <= distance_m < end` of `get_relative_speed`. -/
def matchesAt (distance_m : ℚ) (iv : Interval × ℚ) : Bool :=
  decide (iv.1.1 ≤ distance_m) && decide (distance_m < iv.1.2)

/-- `get_relative_speed(distance_m, pattern)`: first interval containing the
point wins; otherwise fall back to `list(pattern.values())[-1]`, the last
value.  (On an empty pattern Python raises `IndexError`; the model returns a
default of `0` there, and theorems about the fallback assume a nonempty
pattern.) -/
def get_relative_speed (distance_m : ℚ) (pattern : Pattern) : ℚ :=
  match pattern.find? (matchesAt distance_m) with
  | some iv => iv.2
  | none => (pattern.map (fun iv => iv.2)).getLastD 0

/-- `calculate_split_time(start_m, end_m, avg_mps, pattern)`: accumulate
`1 / (avg_mps * (rel/100))` for each `d in range(int(start_m), int(end_m))`. -/
def calculate_split_time (start_m end_m avg_mps : ℚ) (pattern : Pattern) : ℚ :=
  (intRange (truncInt start_m) (truncInt end_m)).foldl
    (fun total d =>
      total + 1 / (avg_mps * (get_relative_speed (Int.cast d) pattern / 100))) 0

/-- One row produced by the loop body of `calc_splits`: the section label,
the section length `seg_len = d - prev_d`, the section speed
`seg_len / split_time`, and the running cumulative time `acc`. -/
structure Split where
  label : String
  seg_len : ℚ
  speed : ℚ
  time : ℚ
  deriving Repr, DecidableEq

/-- The `for d in split_points` loop of `calc_splits`, carrying the previous
boundary `prev_d` and the accumulated time `acc`. -/
def splitsLoop (mps : ℚ) (pattern : Pattern) (prev_d acc : ℚ) :
    List ℚ → List Split
  | [] => []
  | d :: rest =>
    let seg_len := d - prev_d
    let split_time := calculate_split_time prev_d d mps pattern
    let acc2 := acc + split_time
    let segment_mps := seg_len / split_time
    { label := toString (truncInt prev_d) ++ "~" ++ toString (truncInt d) ++ "m",
      seg_len := seg_len, speed := segment_mps, time := acc2 } ::
      splitsLoop mps pattern d acc2 rest

/-- `split_points` as computed at the top of `calc_splits`: the section end
points not exceeding `distance + 1e-9`. -/
def split_points (distance : ℚ) : List ℚ :=
  (SECTIONS.map (fun se => se.2)).filter (fun e => e ≤ distance + 1/1000000000)

/-- `calc_splits(distance, mps, pattern)`: returns the three parallel lists
`(labels, speeds, times)`. -/
def calc_splits (distance mps : ℚ) (pattern : Pattern) :
    List String × List ℚ × List ℚ :=
  let res := splitsLoop mps pattern 0 0 (split_points distance)
  (res.map (fun r => r.label), res.map (fun r => r.speed), res.map (fun r => r.time))

/-- The section lengths produced along the `calc_splits` loop (the values
`seg_len = d - prev_d` of each iteration). -/
def segLens (distance mps : ℚ) (pattern : Pattern) : List ℚ :=
  (splitsLoop mps pattern 0 0 (split_points distance)).map (fun r => r.seg_len)

/-- Looking up a pattern by name and computing splits with it, as done by the
drivers (`main` in `pace_calc.py`, the form handler in `pace_app.py`):
`calc_splits(distance, mps, PATTERNS[name])`.  A missing key raises `KeyError`
in Python before `calc_splits` runs; the model returns `none`. -/
def calcSplitsByName (distance mps : ℚ) (name : String) :
    Option (List String × List ℚ × List ℚ) :=
  match PATTERNS.lookup name with
  | some pattern => some (calc_splits distance mps pattern)
  | none => none

/-- Split a character list at every occurrence of `sep`, like Python
`str.split(sep)` for a one-character separator: `splitOnChar ':' "a:b"` is
`["a", "b"]`, and a string without the separator yields a single group. -/
def splitOnChar (sep : Char) : List Char → List (List Char)
  | [] => [[]]
  | c :: cs =>
    match splitOnChar sep cs with
    | g :: gs => if c = sep then [] :: g :: gs else (c :: g) :: gs
    | [] => if c = sep then [[], []] else [[c]]

/-- The numeric value of a run of decimal digits. -/
def digitsToNat (cs : List Char) : ℕ :=
  cs.foldl (fun n c => 10 * n + (c.toNat - '0'.toNat)) 0

/-- ASCII whitespace stripped by Python's `int()` / `float()` conversions. -/
def isPyWs (c : Char) : Bool :=
  c = ' ' || c = '\t' || c = '\n' || c = '\r' || c = '\x0b' || c = '\x0c'

/-- Strip leading and trailing whitespace, as `int()` / `float()` do. -/
def stripWs (cs : List Char) : List Char :=
  ((cs.dropWhile isPyWs).reverse.dropWhile isPyWs).reverse

/-- Continuation of a digit run: further digits, with single underscores
allowed between digits (Python's PEP-515 digit grouping). -/
def underGo : List Char → Bool
  | [] => true
  | ['_'] => false
  | '_' :: c :: rest => c.isDigit && underGo rest
  | c :: rest => c.isDigit && underGo rest

/-- A nonempty digit run with single underscores allowed between digits:
the `digitpart` grammar of Python's `int()` / `float()` string conversions
(ASCII digits; non-ASCII digit forms are not modelled). -/
def underDigits (cs : List Char) : Bool :=
  match cs with
  | [] => false
  | c :: rest => c.isDigit && underGo rest

/-- Numeric value of a digit run, ignoring the underscore separators. -/
def underVal (cs : List Char) : ℕ :=
  digitsToNat (cs.filter (fun c => c ≠ '_'))

/-- Python `int(s)` on a string: optional surrounding whitespace, optional
sign, and a digit run with underscore grouping. -/
def parseIntChars (s : List Char) : Option ℤ :=
  let core (cs : List Char) : Option ℕ :=
    if underDigits cs then some (underVal cs) else none
  match stripWs s with
  | '-' :: cs => (core cs).map (fun n => -(n : ℤ))
  | '+' :: cs => (core cs).map (fun n => (n : ℤ))
  | cs => (core cs).map (fun n => (n : ℤ))

/-- The mantissa `digits[.digits]` of a decimal literal (at least one digit
on one side of the point), as an exact rational. -/
def parseMant (cs : List Char) : Option ℚ :=
  match splitOnChar '.' cs with
  | [ip] => if underDigits ip then some ((underVal ip : ℚ)) else none
  | [ip, fp] =>
    if (ip = [] ∨ underDigits ip = true) ∧ (fp = [] ∨ underDigits fp = true)
        ∧ ¬(ip = [] ∧ fp = []) then
      some ((underVal ip : ℚ)
        + (underVal fp : ℚ) / (10 : ℚ) ^ (fp.filter (fun c => c ≠ '_')).length)
    else none
  | _ => none

/-- The `[sign]digits` exponent of a decimal literal: sign flag and value. -/
def parseExp (cs : List Char) : Option (Bool × ℕ) :=
  match cs with
  | '-' :: rest => if underDigits rest then some (true, underVal rest) else none
  | '+' :: rest => if underDigits rest then some (false, underVal rest) else none
  | rest => if underDigits rest then some (false, underVal rest) else none

/-- Python `float(s)` on a finite decimal string: optional surrounding
whitespace, optional sign, a mantissa `digits[.digits]` with underscore
grouping, and an optional `e`/`E` exponent, returned as the exact rational
value of the literal.  Python's `float()` additionally accepts the
non-finite literals `inf`/`infinity`/`nan`; IEEE non-finite values have no
rational counterpart, so the model reports them as parse failures — a
deliberate, documented deviation that no theorem below exercises. -/
def parseDecChars (s : List Char) : Option ℚ :=
  let core (cs : List Char) : Option ℚ :=
    match splitOnChar 'e' (cs.map (fun c => if c = 'E' then 'e' else c)) with
    | [mant] => parseMant mant
    | [mant, ex] => do
      let mv ← parseMant mant
      let se ← parseExp ex
      pure (if se.1 then mv / (10 : ℚ) ^ se.2 else mv * (10 : ℚ) ^ se.2)
    | _ => none
  match stripWs s with
  | '-' :: cs => (core cs).map (fun q => -q)
  | '+' :: cs => (core cs).map (fun q => q)
  | cs => core cs

/-- `parse_time(ts)` from `pace_calc.py`: `"mm:ss[.fraction]"` via
`int(m) * 60 + float(s)` when a colon is present (unpacking fails unless the
split has exactly two parts), otherwise `float(ts)`.  `none` models a raised
exception. -/
def parse_time (ts : String) : Option ℚ :=
  if ts.data.contains ':' then
    match splitOnChar ':' ts.data with
    | [m, s] => do
      let mi ← parseIntChars m
      let sv ← parseDecChars s
      pure ((mi : ℚ) * 60 + sv)
    | _ => none
  else parseDecChars ts.data

/-- The last interval's percentage of a pattern
(`list(pattern.values())[-1]`). -/
def lastPct (pattern : Pattern) : ℚ :=
  (pattern.map (fun iv => iv.2)).getLastD 0

/-- The last interval's upper end point of a pattern. -/
def lastEnd (pattern : Pattern) : ℚ :=
  (pattern.map (fun iv => iv.1.2)).getLastD 0

/-- The first interval's start point of a pattern. -/
def firstStart (pattern : Pattern) : ℚ :=
  (pattern.headD ((0, 0), 0)).1.1

/-- Follows the spec's wording for `SegmentTime`: the sum over every integer
`d` in the half-open range `[floor(start), floor(end))` of
`1 / (avgSpeed * (Lookup(d, template) / 100))`.  To be compared against
`calculate_split_time`, which uses Python `int()` truncation. -/
def specSegmentTimeFloor (start_m end_m avg_mps : ℚ) (pattern : Pattern) : ℚ :=
  ((intRange ⌊start_m⌋ ⌊end_m⌋).map
    (fun d => 1 / (avg_mps * (get_relative_speed (Int.cast d) pattern / 100)))).sum

/-- The same sum as `specSegmentTimeFloor` but over
`[int(start), int(end))` with truncation toward zero, matching the code. -/
def specSegmentTimeTrunc (start_m end_m avg_mps : ℚ) (pattern : Pattern) : ℚ :=
  ((intRange (truncInt start_m) (truncInt end_m)).map
    (fun d => 1 / (avg_mps * (get_relative_speed (Int.cast d) pattern / 100)))).sum

/-- Follows the spec's wording for C8: the largest configured boundary not
exceeding `distance` (exact comparison, no epsilon), `0` when none
qualifies. -/
def specLargestNotExceeding (distance : ℚ) : ℚ :=
  ((SECTIONS.map (fun se => se.2)).filter (fun e => e ≤ distance)).foldr max 0

/-! ### Helper lemmas -/

theorem intRange_eq_nil {a b : ℤ} (h : b ≤ a) : intRange a b = [] := by
  unfold intRange
  have h0 : (b - a).toNat = 0 := by omega
  rw [h0]
  rfl

theorem intRange_cons {a b : ℤ} (h : a < b) :
    intRange a b = a :: intRange (a + 1) b := by
  unfold intRange
  have h1 : (b - a).toNat = (b - (a + 1)).toNat + 1 := by omega
  rw [h1]
  rfl

theorem intRange_append {a b c : ℤ} (hab : a ≤ b) (hbc : b ≤ c) :
    intRange a b ++ intRange b c = intRange a c := by
  obtain ⟨n, hn⟩ : ∃ n, (b - a).toNat = n := ⟨_, rfl⟩
  induction n generalizing a with
  | zero =>
    have hba : a = b := by omega
    subst hba
    rw [intRange_eq_nil le_rfl, List.nil_append]
  | succ m ih =>
    have hab' : a < b := by omega
    rw [intRange_cons hab', intRange_cons (lt_of_lt_of_le hab' hbc),
      List.cons_append]
    exact congrArg _ (ih (by omega) (by omega))

theorem foldl_add_eq_sum (l : List ℤ) (f : ℤ → ℚ) (init : ℚ) :
    l.foldl (fun t d => t + f d) init = init + (l.map f).sum := by
  induction l generalizing init with
  | nil => simp
  | cons a t ih => simp [ih, add_assoc]

theorem calculate_split_time_eq_sum (start_m end_m avg_mps : ℚ) (pattern : Pattern) :
    calculate_split_time start_m end_m avg_mps pattern
      = specSegmentTimeTrunc start_m end_m avg_mps pattern := by
  unfold calculate_split_time specSegmentTimeTrunc
  rw [foldl_add_eq_sum, zero_add]

theorem calculate_split_time_of_le {start_m end_m : ℚ} (avg_mps : ℚ)
    (pattern : Pattern) (h : truncInt end_m ≤ truncInt start_m) :
    calculate_split_time start_m end_m avg_mps pattern = 0 := by
  rw [calculate_split_time_eq_sum]
  unfold specSegmentTimeTrunc
  rw [intRange_eq_nil h]
  rfl

theorem calculate_split_time_append {a b c : ℚ} (avg_mps : ℚ) (pattern : Pattern)
    (hab : truncInt a ≤ truncInt b) (hbc : truncInt b ≤ truncInt c) :
    calculate_split_time a b avg_mps pattern + calculate_split_time b c avg_mps pattern
      = calculate_split_time a c avg_mps pattern := by
  rw [calculate_split_time_eq_sum, calculate_split_time_eq_sum,
    calculate_split_time_eq_sum]
  unfold specSegmentTimeTrunc
  rw [← intRange_append hab hbc, List.map_append, List.sum_append]

theorem getLastD_mem {α : Type} {l : List α} (hl : l ≠ []) (d : α) :
    l.getLastD d ∈ l := by
  induction l generalizing d with
  | nil => exact absurd rfl hl
  | cons a t ih =>
    rw [List.getLastD_cons]
    cases t with
    | nil => simp
    | cons b t2 => exact List.mem_cons_of_mem a (ih (by simp) a)

theorem getLastD_of_ne_nil {α : Type} {l : List α} (h : l ≠ []) (d₁ d₂ : α) :
    l.getLastD d₁ = l.getLastD d₂ := by
  cases l with
  | nil => exact absurd rfl h
  | cons a t => rw [List.getLastD_cons, List.getLastD_cons]

theorem le_getLastD_of_pairwise {l : List ℚ} (hp : List.Pairwise (· ≤ ·) l)
    {x : ℚ} (hx : x ∈ l) (d : ℚ) : x ≤ l.getLastD d := by
  induction l generalizing d with
  | nil => exact absurd hx (by simp)
  | cons a t ih =>
    rw [List.pairwise_cons] at hp
    rw [List.getLastD_cons]
    rcases List.mem_cons.1 hx with rfl | hxt
    · cases t with
      | nil => exact le_refl x
      | cons b t2 => exact hp.1 _ (getLastD_mem (by simp) x)
    · exact ih hp.2 hxt a

theorem get_relative_speed_pos {pattern : Pattern} (hne : pattern ≠ [])
    (hpos : ∀ q ∈ pattern.map (fun iv => iv.2), 0 < q) (d : ℚ) :
    0 < get_relative_speed d pattern := by
  unfold get_relative_speed
  cases hfind : pattern.find? (matchesAt d) with
  | some iv =>
    exact hpos _ (List.mem_map_of_mem _ (List.mem_of_find?_eq_some hfind))
  | none =>
    refine hpos _ (getLastD_mem ?_ 0)
    simpa using hne

theorem calculate_split_time_pos {start_m end_m avg_mps : ℚ} {pattern : Pattern}
    (h : truncInt start_m < truncInt end_m) (hm : 0 < avg_mps)
    (hne : pattern ≠ []) (hpos : ∀ q ∈ pattern.map (fun iv => iv.2), 0 < q) :
    0 < calculate_split_time start_m end_m avg_mps pattern := by
  rw [calculate_split_time_eq_sum]
  unfold specSegmentTimeTrunc
  apply List.sum_pos
  · intro x hx
    obtain ⟨e, _, rfl⟩ := List.mem_map.1 hx
    have h1 := get_relative_speed_pos hne hpos (e : ℚ)
    exact div_pos one_pos (mul_pos hm (div_pos h1 (by norm_num)))
  · rw [intRange_cons h]
    simp

theorem splitOnChar_ne_nil (sep : Char) (cs : List Char) :
    splitOnChar sep cs ≠ [] := by
  cases cs with
  | nil => simp [splitOnChar]
  | cons c rest =>
    rw [splitOnChar]
    rcases splitOnChar sep rest with _ | ⟨g, gs⟩ <;> dsimp <;> split <;> simp

theorem splitOnChar_of_not_mem {sep : Char} {cs : List Char} (h : sep ∉ cs) :
    splitOnChar sep cs = [cs] := by
  induction cs with
  | nil => rfl
  | cons c rest ih =>
    have hc : ¬(c = sep) := fun e => h (by rw [e]; exact List.mem_cons_self _ _)
    have hrest : sep ∉ rest := fun hr => h (List.mem_cons_of_mem c hr)
    rw [splitOnChar, ih hrest]
    dsimp
    rw [if_neg hc]

theorem splitOnChar_append {sep : Char} {m : List Char} (h : sep ∉ m)
    (s : List Char) :
    splitOnChar sep (m ++ sep :: s) = m :: splitOnChar sep s := by
  induction m with
  | nil =>
    rw [List.nil_append, splitOnChar]
    obtain ⟨g, gs, hg⟩ := List.exists_cons_of_ne_nil (splitOnChar_ne_nil sep s)
    rw [hg]
    dsimp
    rw [if_pos rfl, ← hg]
  | cons c m' ih =>
    have hc : ¬(c = sep) := fun e => h (by rw [e]; exact List.mem_cons_self _ _)
    have hm' : sep ∉ m' := fun hr => h (List.mem_cons_of_mem c hr)
    rw [List.cons_append, splitOnChar, ih hm']
    dsimp
    rw [if_neg hc]

theorem splitsLoop_cons (mps : ℚ) (pattern : Pattern) (prev_d acc d : ℚ)
    (rest : List ℚ) :
    splitsLoop mps pattern prev_d acc (d :: rest)
      = { label := toString (truncInt prev_d) ++ "~" ++ toString (truncInt d) ++ "m",
          seg_len := d - prev_d,
          speed := (d - prev_d) / calculate_split_time prev_d d mps pattern,
          time := acc + calculate_split_time prev_d d mps pattern }
        :: splitsLoop mps pattern d (acc + calculate_split_time prev_d d mps pattern) rest := by
  rfl

theorem splitsLoop_times_increasing {mps : ℚ} {pattern : Pattern}
    (hm : 0 < mps) (hne : pattern ≠ [])
    (hpos : ∀ q ∈ pattern.map (fun iv => iv.2), 0 < q) :
    ∀ (points : List ℚ) (prev_d acc : ℚ),
      List.Chain' (fun x y => truncInt x < truncInt y) (prev_d :: points) →
      (∀ t ∈ (splitsLoop mps pattern prev_d acc points).map (fun r => r.time), acc < t)
        ∧ List.Chain' (· < ·)
            ((splitsLoop mps pattern prev_d acc points).map (fun r => r.time)) := by
  intro points
  induction points with
  | nil =>
    intro prev_d acc _
    constructor
    · intro t ht
      simp [splitsLoop] at ht
    · simp [splitsLoop]
  | cons d rest ih =>
    intro prev_d acc hchain
    rw [List.chain'_cons] at hchain
    have htime : 0 < calculate_split_time prev_d d mps pattern :=
      calculate_split_time_pos hchain.1 hm hne hpos
    obtain ⟨ihmem, ihchain⟩ :=
      ih d (acc + calculate_split_time prev_d d mps pattern) hchain.2
    rw [splitsLoop_cons, List.map_cons]
    constructor
    · intro t ht
      rcases List.mem_cons.1 ht with rfl | ht2
      · linarith
      · have := ihmem t ht2
        linarith
    · rw [List.chain'_cons']
      refine ⟨?_, ihchain⟩
      intro y hy
      exact ihmem y (List.mem_of_mem_head? hy)

theorem chain'_truncInt_le_getLastD {l : List ℚ} {x : ℚ}
    (h : List.Chain' (fun u v => truncInt u ≤ truncInt v) (x :: l)) :
    truncInt x ≤ truncInt (l.getLastD x) := by
  induction l generalizing x with
  | nil => simp
  | cons y t ih =>
    rw [List.chain'_cons] at h
    rw [List.getLastD_cons]
    exact le_trans h.1 (ih h.2)

theorem splitsLoop_times_getLastD (mps : ℚ) (pattern : Pattern) :
    ∀ (points : List ℚ) (prev_d acc : ℚ),
      List.Chain' (fun u v => truncInt u ≤ truncInt v) (prev_d :: points) →
      ((splitsLoop mps pattern prev_d acc points).map (fun r => r.time)).getLastD acc
        = acc + calculate_split_time prev_d (points.getLastD prev_d) mps pattern := by
  intro points
  induction points with
  | nil =>
    intro prev_d acc _
    simp [splitsLoop, calculate_split_time_of_le mps pattern le_rfl]
  | cons d rest ih =>
    intro prev_d acc hchain
    rw [List.chain'_cons] at hchain
    rw [splitsLoop_cons, List.map_cons, List.getLastD_cons,
      ih d (acc + calculate_split_time prev_d d mps pattern) hchain.2,
      List.getLastD_cons, add_assoc,
      calculate_split_time_append mps pattern hchain.1
        (chain'_truncInt_le_getLastD hchain.2)]

theorem splitsLoop_segLens_sum (mps : ℚ) (pattern : Pattern) :
    ∀ (points : List ℚ) (prev_d acc : ℚ),
      ((splitsLoop mps pattern prev_d acc points).map (fun r => r.seg_len)).sum
        = points.getLastD prev_d - prev_d := by
  intro points
  induction points with
  | nil =>
    intro prev_d acc
    simp [splitsLoop]
  | cons d rest ih =>
    intro prev_d acc
    rw [splitsLoop_cons, List.map_cons, List.sum_cons,
      ih d (acc + calculate_split_time prev_d d mps pattern), List.getLastD_cons]
    ring

theorem foldr_max_eq_getLastD {l : List ℚ} (hs : List.Pairwise (· ≤ ·) l)
    (h0 : ∀ x ∈ l, 0 ≤ x) : l.foldr max 0 = l.getLastD 0 := by
  induction l with
  | nil => rfl
  | cons a t ih =>
    rw [List.foldr_cons, List.getLastD_cons]
    rw [List.pairwise_cons] at hs
    cases t with
    | nil =>
      exact max_eq_left (h0 a (by simp))
    | cons b t2 =>
      rw [ih hs.2 (fun x hx => h0 x (List.mem_cons_of_mem a hx))]
      have h1 : a ≤ (b :: t2).getLastD 0 := hs.1 _ (getLastD_mem (by simp) 0)
      rw [max_eq_right h1]
      exact getLastD_of_ne_nil (by simp) 0 a

/-! ### Claims -/

/-- C1 (counterexample): at `start = -1/2`, `end = 1`, `avgSpeed = 1` and the
ALL template (positive percentages), `calculate_split_time` differs from the
floor-based sum the claim describes, because Python `int()` truncates toward
zero: `int(-0.5) = 0` while `floor(-0.5) = -1`. -/
theorem calculate_split_time_floor_spec_counterexample :
    (0 : ℚ) < 1 ∧ (∀ q ∈ RACE_PATTERN_ALL.map (fun iv => iv.2), 0 < q)
    ∧ calculate_split_time (-1/2) 1 1 RACE_PATTERN_ALL
        ≠ specSegmentTimeFloor (-1/2) 1 1 RACE_PATTERN_ALL := by
  refine ⟨by norm_num, by decide, by decide⟩

/-- C1 (amended): for every start, end, positive avgSpeed and template with
positive percentages, `calculate_split_time` equals the sum over every integer
`d` in `[int(start), int(end))` — `int()` truncating toward zero, which agrees
with floor on non-negative arguments — of `1 / (avgSpeed * (Lookup(d)/100))`;
and when `start == end` it returns exactly `0`. -/
theorem calculate_split_time_eq_trunc_spec (start_m end_m avg_mps : ℚ)
    (pattern : Pattern) (hm : 0 < avg_mps)
    (hpos : ∀ q ∈ pattern.map (fun iv => iv.2), 0 < q) :
    calculate_split_time start_m end_m avg_mps pattern
      = specSegmentTimeTrunc start_m end_m avg_mps pattern
    ∧ (start_m = end_m → calculate_split_time start_m end_m avg_mps pattern = 0) := by
  refine ⟨calculate_split_time_eq_sum _ _ _ _, ?_⟩
  rintro rfl
  exact calculate_split_time_of_le avg_mps pattern le_rfl

/-- Witness for C1 at `start = end = 100`, `avgSpeed = 5`, ALL template. -/
theorem calculate_split_time_eq_trunc_spec_witness :
    calculate_split_time 100 100 5 RACE_PATTERN_ALL = 0 :=
  (calculate_split_time_eq_trunc_spec 100 100 5 RACE_PATTERN_ALL (by norm_num)
    (by decide)).2 rfl

/-- C2: for distance 800 and total time 121.35 s (average speed
`800 / 121.35`), the ALL-template splits start with section "0~120m" whose
speed exceeds the overall average, and end with section "700~800m" whose
speed is below the overall average. -/
theorem calc_splits_800_first_fast_last_slow :
    ((calc_splits 800 (800 / (12135/100)) RACE_PATTERN_ALL).1.head? = some "0~120m")
    ∧ (800 : ℚ) / (12135/100)
        < ((calc_splits 800 (800 / (12135/100)) RACE_PATTERN_ALL).2.1.head?.getD 0)
    ∧ ((calc_splits 800 (800 / (12135/100)) RACE_PATTERN_ALL).1.getLast? = some "700~800m")
    ∧ ((calc_splits 800 (800 / (12135/100)) RACE_PATTERN_ALL).2.1.getLast?.getD 0)
        < 800 / (12135/100) := by
  refine ⟨by decide, by decide, by decide, by decide⟩

/-- C3: `get_relative_speed` returns the percentage of the first interval (in
the pattern's order) containing `d`; and when `d` is at or past the last
interval's end (for a pattern whose interval ends are in increasing order, as
the data model requires), it returns the last interval's percentage instead of
failing. -/
theorem get_relative_speed_first_match_and_fallback (pattern : Pattern) (d : ℚ) :
    (∀ iv, pattern.find? (matchesAt d) = some iv → get_relative_speed d pattern = iv.2)
    ∧ (pattern ≠ [] →
        List.Pairwise (· ≤ ·) (pattern.map (fun iv => iv.1.2)) →
        lastEnd pattern ≤ d →
        get_relative_speed d pattern = lastPct pattern) := by
  constructor
  · intro iv hiv
    unfold get_relative_speed
    rw [hiv]
  · intro hne hp hd
    have hnone : pattern.find? (matchesAt d) = none := by
      rw [List.find?_eq_none]
      intro iv hiv
      have h1 : iv.1.2 ≤ lastEnd pattern :=
        le_getLastD_of_pairwise hp (List.mem_map_of_mem _ hiv) 0
      simp only [matchesAt, Bool.and_eq_true, decide_eq_true_eq, not_and]
      intro _
      exact not_lt.2 (le_trans h1 hd)
    unfold get_relative_speed lastPct
    rw [hnone]

/-- Witness for C3: an interior lookup (first matching interval) and the
lookup at the exact final boundary `800` of the ALL template. -/
theorem get_relative_speed_first_match_and_fallback_witness :
    get_relative_speed 150 RACE_PATTERN_ALL = 10499/100
    ∧ get_relative_speed 800 RACE_PATTERN_ALL = 9745/100 := by
  constructor
  · exact (get_relative_speed_first_match_and_fallback RACE_PATTERN_ALL 150).1
      ((120, 200), 10499/100) (by decide)
  · exact ((get_relative_speed_first_match_and_fallback RACE_PATTERN_ALL 800).2
      (by decide) (by decide) (by decide)).trans (by decide)

/-- C4: for every distance, positive average speed, and nonempty template with
positive percentages, the cumulative times returned by `calc_splits` are
strictly increasing (all configured sections have positive length). -/
theorem calc_splits_times_strictMono (distance mps : ℚ) (pattern : Pattern)
    (hm : 0 < mps) (hne : pattern ≠ [])
    (hpos : ∀ q ∈ pattern.map (fun iv => iv.2), 0 < q) :
    List.Chain' (· < ·) (calc_splits distance mps pattern).2.2 := by
  have hsub : List.Sublist ((0 : ℚ) :: split_points distance)
      (0 :: (SECTIONS.map (fun se => se.2))) :=
    List.Sublist.cons₂ 0 (List.filter_sublist _)
  have hpair : List.Pairwise (fun x y => truncInt x < truncInt y)
      ((0 : ℚ) :: (SECTIONS.map (fun se => se.2))) := by decide
  exact (splitsLoop_times_increasing hm hne hpos (split_points distance) 0 0
    ((hpair.sublist hsub).chain')).2

/-- Witness for C4 at the concrete 800 m scenario. -/
theorem calc_splits_times_strictMono_witness :
    List.Chain' (· < ·) (calc_splits 800 (800 / (12135/100)) RACE_PATTERN_ALL).2.2 :=
  calc_splits_times_strictMono 800 (800 / (12135/100)) RACE_PATTERN_ALL
    (by norm_num) (by decide) (by decide)

/-- C5 (counterexample): `parse_time` does not reject non-positive results:
`"0"` parses successfully to `0` instead of failing. -/
theorem parse_time_nonpositive_counterexample : parse_time "0" = some 0 := by
  decide

/-- C5 (amended): for every string with exactly one colon, `parse_time`
returns `int(m) * 60 + float(s)` of the two parts, failing exactly when a
component fails to parse; for every colon-free string it returns
`float(text)`, so it fails precisely on the shapes its components reject,
such as `"abc"` (`"2:01.35"` and `"121.35"` both yield 121.35).  It does not
reject non-positive results: `"0"` yields `0` and `"-5"` yields `-5`,
positivity being validated by the caller instead. -/
theorem parse_time_behavior :
    (∀ m s : List Char, ':' ∉ m → ':' ∉ s →
      parse_time (String.mk (m ++ ':' :: s))
        = (parseIntChars m).bind
            (fun mi => (parseDecChars s).map (fun sv => (mi : ℚ) * 60 + sv)))
    ∧ (∀ s : List Char, ':' ∉ s → parse_time (String.mk s) = parseDecChars s)
    ∧ parse_time "2:01.35" = some (12135/100)
    ∧ parse_time "121.35" = some (12135/100)
    ∧ parse_time "abc" = none
    ∧ parse_time "0" = some 0
    ∧ parse_time "-5" = some (-5) := by
  refine ⟨?_, ?_, by decide, by decide, by decide, by decide, by decide⟩
  · intro m s hm hs
    have hc : (String.mk (m ++ ':' :: s)).data.contains ':' = true := by
      simp [List.contains]
    unfold parse_time
    rw [hc, if_pos rfl, splitOnChar_append hm s, splitOnChar_of_not_mem hs]
    dsimp only
    rcases hmi : parseIntChars m with _ | mi <;>
      rcases hsv : parseDecChars s with _ | sv <;> simp [hmi, hsv]
  · intro s hs
    have hc : (String.mk s).data.contains ':' = false := by
      simpa [List.contains] using hs
    unfold parse_time
    rw [hc]
    rfl

/-- Witness for C5's universal clauses at the concrete input `"3:21"`. -/
theorem parse_time_behavior_witness : parse_time "3:21" = some 201 :=
  (parse_time_behavior.1 ['3'] ['2', '1'] (by decide) (by decide)).trans (by decide)

/-- C6: a template name missing from the catalog makes the driver fail at the
`PATTERNS[name]` lookup, before `calc_splits` runs, with no partial results. -/
theorem calcSplitsByName_unknown_none (name : String)
    (h : PATTERNS.lookup name = none) (distance mps : ℚ) :
    calcSplitsByName distance mps name = none := by
  unfold calcSplitsByName
  rw [h]

/-- Witness for C6 at the unknown name `"XYZ"`. -/
theorem calcSplitsByName_unknown_none_witness :
    calcSplitsByName 800 (800 / (12135/100)) "XYZ" = none :=
  calcSplitsByName_unknown_none "XYZ" (by decide) 800 (800 / (12135/100))

/-- C7: `calc_splits` first filters the configured boundaries to those not
exceeding `distance + 1e-9`; whenever no boundary passes the filter it returns
empty result sequences rather than an error. -/
theorem calc_splits_filter_and_empty (distance mps : ℚ) (pattern : Pattern) :
    split_points distance
      = (SECTIONS.map (fun se => se.2)).filter (fun e => e ≤ distance + 1/1000000000)
    ∧ (split_points distance = [] → calc_splits distance mps pattern = ([], [], [])) := by
  refine ⟨rfl, ?_⟩
  intro h
  unfold calc_splits
  rw [h]
  rfl

/-- Witness for C7 at distance 100, below every boundary by more than the
epsilon. -/
theorem calc_splits_filter_and_empty_witness :
    calc_splits 100 2 RACE_PATTERN_ALL = ([], [], []) :=
  (calc_splits_filter_and_empty 100 2 RACE_PATTERN_ALL).2 (by decide)

/-- C8 (counterexample): at the positive distance `120 - 1e-10` (time 1), the
epsilon filter admits boundary 120 although it exceeds the distance, so the
section lengths sum to 120 while no configured boundary is `≤ distance` (the
claim's exact-comparison value is 0). -/
theorem segLens_sum_exact_counterexample :
    (0 : ℚ) < 120 - 1/10000000000
    ∧ (segLens (120 - 1/10000000000) ((120 - 1/10000000000) / 1) RACE_PATTERN_ALL).sum
        ≠ specLargestNotExceeding (120 - 1/10000000000) := by
  refine ⟨by norm_num, by decide⟩

/-- C8 (amended): for every positive distance and time (average speed
`distance / time`) and every nonempty template with positive percentages, the
section lengths of the splits sum exactly to the largest configured boundary
not exceeding `distance + 1e-9` (and to 0 when no boundary passes the
filter). -/
theorem segLens_sum_eq_largest_filtered (distance time : ℚ) (pattern : Pattern)
    (hd : 0 < distance) (ht : 0 < time) (hne : pattern ≠ [])
    (hpos : ∀ q ∈ pattern.map (fun iv => iv.2), 0 < q) :
    (segLens distance (distance / time) pattern).sum
      = ((SECTIONS.map (fun se => se.2)).filter
          (fun e => e ≤ distance + 1/1000000000)).foldr max 0 := by
  unfold segLens
  rw [splitsLoop_segLens_sum, sub_zero]
  have hpair : List.Pairwise (· ≤ ·) (split_points distance) :=
    (by decide : List.Pairwise (· ≤ ·) (SECTIONS.map (fun se => se.2))).sublist
      (List.filter_sublist _)
  have h0 : ∀ x ∈ split_points distance, (0 : ℚ) ≤ x := by
    intro x hx
    have hfull : ∀ x ∈ SECTIONS.map (fun se => se.2), (0 : ℚ) ≤ x := by decide
    exact hfull x ((List.filter_sublist _).subset hx)
  exact (foldr_max_eq_getLastD hpair h0).symm

/-- Witness for C8 at the concrete 800 m / 121.35 s scenario: the section
lengths sum to 800, the largest boundary passing the filter. -/
theorem segLens_sum_eq_largest_filtered_witness :
    (segLens 800 ((800 : ℚ) / (12135/100)) RACE_PATTERN_ALL).sum = 800 :=
  (segLens_sum_eq_largest_filtered 800 (12135/100) RACE_PATTERN_ALL
    (by norm_num) (by norm_num) (by decide) (by decide)).trans (by decide)

/-- C9: for a nonempty pattern whose first interval start is minimal (as in
every catalog template) and a point `d` strictly below that first start —
e.g. any negative `d` — no interval matches, so `get_relative_speed` falls
back to the LAST interval's percentage, not the first's, and does not fail. -/
theorem get_relative_speed_below_first_fallback (pattern : Pattern) (d : ℚ)
    (hne : pattern ≠ [])
    (hmin : ∀ iv ∈ pattern, firstStart pattern ≤ iv.1.1)
    (hd : d < firstStart pattern) :
    get_relative_speed d pattern = lastPct pattern := by
  have hnone : pattern.find? (matchesAt d) = none := by
    rw [List.find?_eq_none]
    intro iv hiv
    simp only [matchesAt, Bool.and_eq_true, decide_eq_true_eq, not_and]
    intro h1
    exact absurd hd (not_lt.2 (le_trans (hmin iv hiv) h1))
  unfold get_relative_speed lastPct
  rw [hnone]

/-- Witness for C9 at `d = -1` under the ALL template. -/
theorem get_relative_speed_below_first_fallback_witness :
    get_relative_speed (-1) RACE_PATTERN_ALL = 9745/100 :=
  (get_relative_speed_below_first_fallback RACE_PATTERN_ALL (-1)
    (by decide) (by decide) (by decide)).trans (by decide)

/-- C10 (counterexample): with `a = -1/2`, `b = -1`, `c = 0` the claim's
hypothesis `floor a ≤ floor b ≤ floor c` holds, but the code's truncation
toward zero makes `int(a) = 0 > int(b) = -1`, so
`SegmentTime(a,b) + SegmentTime(b,c) ≠ SegmentTime(a,c)`. -/
theorem calculate_split_time_floor_additivity_counterexample :
    ⌊(-1/2 : ℚ)⌋ ≤ ⌊(-1 : ℚ)⌋ ∧ ⌊(-1 : ℚ)⌋ ≤ ⌊(0 : ℚ)⌋
    ∧ calculate_split_time (-1/2) (-1) 1 RACE_PATTERN_ALL
        + calculate_split_time (-1) 0 1 RACE_PATTERN_ALL
      ≠ calculate_split_time (-1/2) 0 1 RACE_PATTERN_ALL := by
  refine ⟨by decide, by decide, by decide⟩

/-- C10 (amended): for every positive average speed and every nonempty
template with positive percentages, under exact rational arithmetic, whenever
`int(a) ≤ int(b) ≤ int(c)` (truncation toward zero, which agrees with floor on
non-negative inputs), `SegmentTime(a,b) + SegmentTime(b,c) = SegmentTime(a,c)`;
consequently the cumulative time emitted for the final section equals
`SegmentTime(0, lastBoundary)`. -/
theorem calculate_split_time_additivity (mps : ℚ) (pattern : Pattern)
    (hm : 0 < mps) (hne : pattern ≠ [])
    (hpos : ∀ q ∈ pattern.map (fun iv => iv.2), 0 < q) :
    (∀ a b c : ℚ, truncInt a ≤ truncInt b → truncInt b ≤ truncInt c →
      calculate_split_time a b mps pattern + calculate_split_time b c mps pattern
        = calculate_split_time a c mps pattern)
    ∧ ∀ distance : ℚ,
        ((calc_splits distance mps pattern).2.2).getLastD 0
          = calculate_split_time 0 ((split_points distance).getLastD 0) mps pattern := by
  constructor
  · intro a b c hab hbc
    exact calculate_split_time_append mps pattern hab hbc
  · intro distance
    have hpair : List.Pairwise (fun u v => truncInt u ≤ truncInt v)
        ((0 : ℚ) :: (SECTIONS.map (fun se => se.2))) := by decide
    have hsub : List.Sublist ((0 : ℚ) :: split_points distance)
        (0 :: (SECTIONS.map (fun se => se.2))) :=
      List.Sublist.cons₂ 0 (List.filter_sublist _)
    have h := splitsLoop_times_getLastD mps pattern (split_points distance) 0 0
      ((hpair.sublist hsub).chain')
    rw [zero_add] at h
    exact h

/-- Witness for C10: additivity at `0 ≤ 1 ≤ 2` under the ALL template. -/
theorem calculate_split_time_additivity_witness :
    calculate_split_time 0 1 1 RACE_PATTERN_ALL
        + calculate_split_time 1 2 1 RACE_PATTERN_ALL
      = calculate_split_time 0 2 1 RACE_PATTERN_ALL :=
  (calculate_split_time_additivity 1 RACE_PATTERN_ALL (by norm_num) (by decide)
    (by decide)).1 0 1 2 (by decide) (by decide)

end PaceCalc
